import Mathlib

/-!
Verification of the streaming parse-and-dispatch engine of an alarm-panel
client library.  The Python sources (`elitecloud_alarm/…`, `arrowhead_alarm/…`)
are shallowly embedded: Python strings become Lean `String` (list-of-`Char`
backed), Python exceptions become values of an explicit `Exn` type, and a
function that may `raise` returns `Except Exn _`.  The stateful consumer
adapters become explicit state-passing step functions.
-/

namespace Alarm

/-- Python exception values relevant to the engine (`exceptions.py` plus the
built-in `ValueError`, `IndexError` and `asyncio.TimeoutError`). -/
inductive Exn where
  | valueError (msg : String)
  | indexError (msg : String)
  | timeoutError (msg : String)
  | connectionError (msg : String)
  | commandNotUnderstood (command response : String)
  | invalidParameter (command response : String)
  | commandNotAllowed (command response : String)
  | rxBufferOverflow (command response : String)
  | txBufferOverflow (command response : String)
  | xmodemSessionFailed (command response : String)
  | commandError (error command response : String)
  deriving DecidableEq, Repr

/-! ### Models of the Python `str` built-ins used by the sources -/

/-- Python `str.isspace` on one character (the ASCII whitespace used by
`str.split()` / `str.strip()`). -/
def pyIsSpace (c : Char) : Bool :=
  c = ' ' ∨ c = '\t' ∨ c = '\n' ∨ c = '\r' ∨ c = '\x0b' ∨ c = '\x0c'

/-- Python `str.upper` on one ASCII character. -/
def pyUpperChar (c : Char) : Char :=
  if 'a' ≤ c ∧ c ≤ 'z' then Char.ofNat (c.toNat - 32) else c

/-- Python `str.upper` (ASCII). -/
def pyUpper (s : String) : String := String.mk (s.toList.map pyUpperChar)

/-- Worker for `str.split()` with no separator: split on runs of whitespace,
dropping empty tokens.  `acc` holds the reversed current token. -/
def splitWsGo : List Char → List Char → List (List Char)
  | [], acc => if acc = [] then [] else [acc.reverse]
  | c :: rest, acc =>
    if pyIsSpace c then
      if acc = [] then splitWsGo rest [] else acc.reverse :: splitWsGo rest []
    else splitWsGo rest (c :: acc)

/-- Python `str.split()` (no separator argument). -/
def pySplitWs (s : String) : List String :=
  (splitWsGo s.toList []).map String.mk

/-- Python `sep.join(list)`. -/
def pyJoin (sep : String) : List String → String
  | [] => ""
  | [x] => x
  | x :: xs => x ++ sep ++ pyJoin sep xs

/-- Worker for `str.split(sep)` with a non-empty separator.  Fuel-indexed so
that the recursion is structural; one unit of fuel is spent per consumed
character, so `fuel = length of the list` always suffices. -/
def pySplitGo (sep : List Char) : Nat → List Char → List Char → List (List Char)
  | _, [], acc => [acc.reverse]
  | 0, l, acc => [acc.reverse ++ l]
  | fuel + 1, c :: rest, acc =>
    if sep.isPrefixOf (c :: rest) then
      acc.reverse :: pySplitGo sep fuel ((c :: rest).drop sep.length) []
    else
      pySplitGo sep fuel rest (c :: acc)

/-- Python `s.split(sep)` for a non-empty separator string (the delimiters the
repository passes are never empty; Python raises on an empty one, modelled as
the trivial split). -/
def pySplit (s sep : String) : List String :=
  if sep.toList = [] then [s]
  else (pySplitGo sep.toList s.toList.length s.toList []).map String.mk

/-- Python `str.strip()` (no argument: strip whitespace at both ends). -/
def pyStrip (s : String) : String :=
  String.mk (((s.toList.dropWhile pyIsSpace).reverse.dropWhile pyIsSpace).reverse)

/-- Python `a.startswith(b)`. -/
def pyStartsWith (s pre : String) : Bool := pre.toList.isPrefixOf s.toList

/-- Decimal value of a digit list (big-endian, as written). -/
def digitsVal (l : List Char) : Nat :=
  l.foldl (fun a c => 10 * a + (c.toNat - 48)) 0

/-- All-decimal-digits test on a character list. -/
def allDigits (l : List Char) : Bool := l.all fun c => c.isDigit

/-- Python `str.isdigit` (ASCII): non-empty and all digits. -/
def pyIsDigit (s : String) : Bool := s.toList ≠ [] && allDigits s.toList

/-- Python `int(s)`: strip whitespace, optional sign, then decimal digits;
`none` models the `ValueError` raised on any other input. -/
def pyInt? (s : String) : Option Int :=
  match (pyStrip s).toList with
  | '-' :: ds => if ds ≠ [] && allDigits ds then some (-(digitsVal ds : Int)) else none
  | '+' :: ds => if ds ≠ [] && allDigits ds then some (digitsVal ds : Int) else none
  | ds => if ds ≠ [] && allDigits ds then some (digitsVal ds : Int) else none

/-! ### `elitecloud_alarm/const.py` is not part of the sources under `src/`.

Modelled from the spec: the wire protocol discriminates responses by the
literal prefixes `"OK"` and `"ERR"`, and the authentication exchange uses the
welcome banner, login prompt and password prompt literals of the end-to-end
scenarios (`"WELCOME"`, `"LOGIN:"`, `"PASSWORD:"`). -/

/-- Modelled from the spec: `COMMAND_OK_PREFIX` from the missing `const.py`;
the ok-or-err step maps the literal `"OK"`. -/
def COMMAND_OK_PREFIX : String := "OK"

/-- Modelled from the spec: `COMMAND_ERROR_PREFIX` from the missing
`const.py`; the ok-or-err step maps the literal `"ERR"`. -/
def COMMAND_ERROR_PREFIX : String := "ERR"

/-- Modelled from the spec: `AUTH_WELCOME_MSG` from the missing `const.py`
(end-to-end scenario 1: the transport yields `"WELCOME\n"`). -/
def AUTH_WELCOME_MSG : String := "WELCOME"

/-- Modelled from the spec: `AUTH_LOGIN_MSG` from the missing `const.py`
(end-to-end scenario 2: the transport yields `"LOGIN:\n"`). -/
def AUTH_LOGIN_MSG : String := "LOGIN:"

/-! ### `elitecloud_alarm/types.py` -/

/-- The four-case flow outcome (`FlowResult`, `types.py`): `Go`, `Wait`,
`Restart` (the spec's `Reject`) and `Error`. -/
inductive FlowResult (T : Type) where
  | Go (value : T)
  | Wait
  | Restart
  | Error (e : Exn)
  deriving DecidableEq, Repr

/-- `FlowResult.bind` from `types.py`: chain `Go` values, propagate the
rest unchanged. -/
def FlowResult.bind {T U : Type} (r : FlowResult T) (f : T → FlowResult U) :
    FlowResult U :=
  match r with
  | .Go v => f v
  | .Wait => .Wait
  | .Restart => .Restart
  | .Error e => .Error e

/-- Decidable equality on `Except` results (used only to evaluate concrete
runs of the embedded code). -/
instance exceptDecEq {α β : Type} [DecidableEq α] [DecidableEq β] :
    DecidableEq (Except α β) := fun x y =>
  match x, y with
  | .ok a, .ok b =>
    if h : a = b then .isTrue (by rw [h]) else .isFalse (by intro hc; cases hc; exact h rfl)
  | .error a, .error b =>
    if h : a = b then .isTrue (by rw [h]) else .isFalse (by intro hc; cases hc; exact h rfl)
  | .ok _, .error _ => .isFalse (by intro hc; cases hc)
  | .error _, .ok _ => .isFalse (by intro hc; cases hc)

/-- A processor that, like a Python callable, may also raise: `Except.error`
is an uncaught exception escaping the call. -/
def RProcessor (T : Type) : Type := String → Except Exn (FlowResult T)

/-- `FlowResult.bind` applied to a processor that may raise: on `Go` the
processor runs (and its exception, if any, propagates); otherwise the
outcome propagates and nothing is raised. -/
def bindX {T U : Type} (r : FlowResult T) (f : T → Except Exn (FlowResult U)) :
    Except Exn (FlowResult U) :=
  match r with
  | .Go v => f v
  | .Wait => .ok .Wait
  | .Restart => .ok .Restart
  | .Error e => .ok (.Error e)

/-- Queue entries (`Result = Success | Fail`, `types.py`). -/
inductive Result (T : Type) where
  | Success (value : T)
  | Fail (error : Exn)
  deriving DecidableEq, Repr

/-- `VersionInfo` (`types.py`): firmware version triple. -/
structure VersionInfo where
  major_version : Int
  minor_version : Int
  patch_version : Int
  deriving DecidableEq, Repr

/-- `VersionInfo.__gt__`. -/
def VersionInfo.gt (a b : VersionInfo) : Bool :=
  if a.major_version ≠ b.major_version then
    decide (a.major_version > b.major_version)
  else if a.minor_version ≠ b.minor_version then
    decide (a.minor_version > b.minor_version)
  else decide (a.patch_version > b.patch_version)

/-- `VersionInfo.__eq__`: equality on the three components. -/
def VersionInfo.eqv (a b : VersionInfo) : Bool :=
  decide (a.major_version = b.major_version) &&
    decide (a.minor_version = b.minor_version) &&
    decide (a.patch_version = b.patch_version)

/-- `VersionInfo.__ge__`: `self > other or self == other`. -/
def VersionInfo.ge (a b : VersionInfo) : Bool := a.gt b || a.eqv b

/-- `VersionInfo.__lt__`: `not self >= other`. -/
def VersionInfo.lt (a b : VersionInfo) : Bool := !(a.ge b)

/-- `VersionInfo.__le__`: `not self > other`. -/
def VersionInfo.le (a b : VersionInfo) : Bool := !(a.gt b)

/-- `AlarmMessage` (`types.py`). -/
structure AlarmMessage where
  message_type : String
  number : Option Int
  deriving DecidableEq, Repr

/-- The `next((index for index, char in enumerate(message) if
char.isdigit()), len(message))` expression inside `AlarmMessage.parse`:
index of the first decimal digit, defaulting to the length. -/
def firstDigitIdx : List Char → Nat
  | [] => 0
  | c :: rest => if c.isDigit then 0 else firstDigitIdx rest + 1

/-- `AlarmMessage.parse` (`types.py`): slice at the first digit and parse
the suffix as a number when it `isdigit()`. -/
def AlarmMessage.parse (message : String) : AlarmMessage :=
  let chars := message.toList
  let first_digit := firstDigitIdx chars
  let message_type := chars.take first_digit
  let number_part := chars.drop first_digit
  let number : Option Int :=
    if pyIsDigit (String.mk number_part) then some (digitsVal number_part : Nat)
    else none
  ⟨String.mk message_type, number⟩

/-- `ProtocolMode` (`types.py`). -/
inductive ProtocolMode where
  | MODE_1
  | MODE_2
  | MODE_3
  | MODE_4
  deriving DecidableEq, Repr

/-- `ProtocolMode.value`. -/
def ProtocolMode.value : ProtocolMode → Int
  | .MODE_1 => 1
  | .MODE_2 => 2
  | .MODE_3 => 3
  | .MODE_4 => 4

/-- `ArmingMode` (`types.py`). -/
inductive ArmingMode where
  | AWAY
  | STAY
  deriving DecidableEq, Repr

/-! ### `elitecloud_alarm/util.py` -/

/-- `split_complete_lines` (`util.py`): split on the delimiter and drop the
trailing (possibly empty) fragment. -/
def split_complete_lines (response delimiter : String) : List String :=
  (pySplit response delimiter).dropLast

/-- `is_mode_4_supported` (`util.py`). -/
def is_mode_4_supported (version : VersionInfo) : Bool :=
  version.ge ⟨10, 3, 50⟩

/-! ### `elitecloud_alarm/parsing.py` — transformer library -/

/-- `get_command_exception` (`parsing.py`): map an `ERR` code to the
exception taxonomy. -/
def get_command_exception (error_code : Int) (command response : String) : Exn :=
  if error_code = 1 then .commandNotUnderstood command response
  else if error_code = 2 then .invalidParameter command response
  else if error_code = 3 then .commandNotAllowed command response
  else if error_code = 4 then .rxBufferOverflow command response
  else if error_code = 5 then .txBufferOverflow command response
  else if error_code = 6 then .xmodemSessionFailed command response
  else .commandError (toString error_code) command response

/-- `catch_command_error` (`parsing.py`): `OK` prefix strips the prefix and
goes; `ERR` parses the code (`IndexError`/`ValueError` → `0`) and errors;
anything else waits. -/
def catch_command_error (response command : String) : FlowResult String :=
  match pySplitWs response with
  | w0 :: rest =>
    if w0 = COMMAND_OK_PREFIX then .Go (pyJoin " " rest)
    else if w0 = COMMAND_ERROR_PREFIX then
      let error_code : Int :=
        match rest.head? with
        | some w1 => (pyInt? w1).getD 0
        | none => 0
      .Error (get_command_exception error_code command response)
    else .Wait
  | [] => .Wait

/-- `wait_any_complete_lines` (`parsing.py`). -/
def wait_any_complete_lines (response delimiter : String) :
    FlowResult (List String) :=
  let lines := split_complete_lines response delimiter
  if lines.length = 0 then .Wait else .Go lines

/-- `wait_lines` (`parsing.py`). -/
def wait_lines (response : String) (expected_lines : Nat) (delimiter : String) :
    FlowResult (List String) :=
  let lines := split_complete_lines response delimiter
  if lines.length = expected_lines then .Go lines else .Wait

/-- `wait_line` (`parsing.py`): one complete line, then pick the first. -/
def wait_line (response delimiter : String) : FlowResult String :=
  (wait_lines response 1 delimiter).bind fun lines => .Go (lines.headI)

/-- `join_lines` (`parsing.py`). -/
def join_lines (response : List String) (delimiter : String) :
    FlowResult String :=
  .Go (pyJoin delimiter response)

/-- `split_lines` (`parsing.py`). -/
def split_lines (response delimiter : String) : FlowResult (List String) :=
  .Go (pySplit response delimiter)

/-- `check_expected_keyword` (`parsing.py`).  Note the unconditional
`words[0] = words[0]`, which raises `IndexError` on a whitespace-only
input before the `if words` guard can fire. -/
def check_expected_keyword (response expected_keyword : String)
    (case_sensitive : Bool) : Except Exn (FlowResult String) :=
  match pySplitWs response with
  | [] => .error (.indexError "list index out of range")
  | w0 :: rest =>
    let w0c := if case_sensitive then w0 else pyUpper w0
    let kw := if case_sensitive then expected_keyword else pyUpper expected_keyword
    if w0c = kw then .ok (.Go (pyJoin " " rest)) else .ok .Wait

/-- `go_discard` (`parsing.py`). -/
def go_discard {T : Type} (_ : T) : FlowResult Unit := .Go ()

/-- `strip` (`parsing.py`). -/
def strip (response : String) : FlowResult String := .Go (pyStrip response)

/-- `parse_int` (`parsing.py`): `int(response.strip())`, `ValueError` →
`Error`. -/
def parse_int (response : String) : FlowResult Int :=
  match pyInt? (pyStrip response) with
  | some value => .Go value
  | none =>
    .Error (.valueError ("invalid literal for int() with base 10: " ++
      pyStrip response))

/-- `check_string_with_options` (`parsing.py`): first exact match goes,
else any option extending the input waits, else restart. -/
def check_string_with_options (response : String) (options : List String)
    (case_sensitive : Bool) : FlowResult String :=
  let response_cmp := if case_sensitive then response else pyUpper response
  let options_cmp := if case_sensitive then options else options.map pyUpper
  match options_cmp.find? fun opt => opt = response_cmp with
  | some opt => .Go opt
  | none =>
    if options_cmp.any fun opt => pyStartsWith opt response_cmp then .Wait
    else .Restart

/-- `single_line_command_step` (`parsing.py`): one complete line, then the
OK/ERR discriminator, then the expected keyword (which may raise). -/
def single_line_command_step (resp command keyword delimiter : String) :
    Except Exn (FlowResult String) :=
  bindX ((wait_line resp delimiter).bind fun response =>
      catch_command_error response command)
    fun response => check_expected_keyword response keyword true

/-! ### `elitecloud_alarm/parsing.py` — consumer adapters.

Each adapter's mutable closure state becomes an explicit state record; the
one-shot future becomes a `FutOutcome` field.  Feeding the sink a chunk or an
exception is `Sum String Exn`. -/

/-- The resolution state of the one-shot `asyncio.Future`. -/
inductive FutOutcome (T : Type) where
  | pending
  | resolved (value : T)
  | rejected (e : Exn)
  deriving DecidableEq, Repr

/-- `process_and_catch` (`parsing.py`): run the processor, converting a
raised exception into `Error`. -/
def process_and_catch {T : Type} (response : String) (processor : RProcessor T) :
    FlowResult T :=
  match processor response with
  | .ok r => r
  | .error e => .Error e

/-- State of `create_future_parser`: the accumulated buffer and the future. -/
structure FutureState (T : Type) where
  buffer : String
  out : FutOutcome T
  deriving DecidableEq, Repr

/-- Initial state of `create_future_parser`. -/
def future_init (T : Type) : FutureState T := ⟨"", .pending⟩

/-- `process_char` inside `create_future_parser`: append the char, run the
processor, and if the future is still pending act on the outcome
(`Restart` clears the buffer). -/
def process_char {T : Type} (processor : RProcessor T) (s : FutureState T)
    (c : Char) : FutureState T :=
  let buffer := s.buffer.push c
  let result := process_and_catch buffer processor
  match s.out with
  | .pending =>
    match result with
    | .Go value => ⟨buffer, .resolved value⟩
    | .Error e => ⟨buffer, .rejected e⟩
    | .Wait => ⟨buffer, .pending⟩
    | .Restart => ⟨"", .pending⟩
  | _ => ⟨buffer, s.out⟩

/-- The `listener` returned by `create_future_parser`: an exception input
rejects the future; a chunk is processed character by character; a done
future ignores the call. -/
def future_listener {T : Type} (processor : RProcessor T) (s : FutureState T)
    (response : Sum String Exn) : FutureState T :=
  match s.out with
  | .pending =>
    match response with
    | .inr e => { s with out := .rejected e }
    | .inl str => str.toList.foldl (process_char processor) s
  | _ => s

/-- State of `create_queue_parser`: the buffer and the queue contents. -/
structure QueueState (T : Type) where
  buffer : String
  queue : List (Result T)
  deriving DecidableEq, Repr

/-- Initial state of `create_queue_parser`. -/
def queue_init (T : Type) : QueueState T := ⟨"", []⟩

/-- One character step of the `create_queue_parser` loop: `Go` enqueues
`Success` and clears, `Error` enqueues `Fail` and clears, `Wait` keeps,
`Restart` clears. -/
def queue_char {T : Type} (processor : RProcessor T) (s : QueueState T)
    (c : Char) : QueueState T :=
  let buffer := s.buffer.push c
  match process_and_catch buffer processor with
  | .Go value => ⟨"", s.queue ++ [.Success value]⟩
  | .Error e => ⟨"", s.queue ++ [.Fail e]⟩
  | .Wait => ⟨buffer, s.queue⟩
  | .Restart => ⟨"", s.queue⟩

/-- The `parser` returned by `create_queue_parser`. -/
def queue_listener {T : Type} (processor : RProcessor T) (s : QueueState T)
    (response : Sum String Exn) : QueueState T :=
  match response with
  | .inr e => { s with queue := s.queue ++ [.Fail e] }
  | .inl str => str.toList.foldl (queue_char processor) s

/-- State of `create_sliding_timeout_parser`: buffer, whether a timer is
armed, and the future. -/
structure SlidingState (T : Type) where
  buffer : String
  timerArmed : Bool
  out : FutOutcome T
  deriving DecidableEq, Repr

/-- Initial state of `create_sliding_timeout_parser`. -/
def sliding_init (T : Type) : SlidingState T := ⟨"", false, .pending⟩

/-- One character step of the `create_sliding_timeout_parser` loop: the loop
breaks once the future is done; `Go` cancels and re-arms the timer;
`Restart` clears the buffer without touching the timer. -/
def sliding_char {T : Type} (processor : RProcessor T) (s : SlidingState T)
    (c : Char) : SlidingState T :=
  match s.out with
  | .pending =>
    let buffer := s.buffer.push c
    match process_and_catch buffer processor with
    | .Error e => ⟨buffer, s.timerArmed, .rejected e⟩
    | .Restart => ⟨"", s.timerArmed, .pending⟩
    | .Go _ => ⟨buffer, true, .pending⟩
    | .Wait => ⟨buffer, s.timerArmed, .pending⟩
  | _ => s

/-- The `parser` returned by `create_sliding_timeout_parser`: arms the timer
on the first chunk, then runs the character loop. -/
def sliding_listener {T : Type} (processor : RProcessor T) (s : SlidingState T)
    (response : Sum String Exn) : SlidingState T :=
  match s.out with
  | .pending =>
    match response with
    | .inr e => { s with out := .rejected e }
    | .inl str =>
      let s' : SlidingState T :=
        if s.timerArmed then s else { s with timerArmed := true }
      str.toList.foldl (sliding_char processor) s'
  | _ => s

/-- `_on_timeout` inside `create_sliding_timeout_parser`.  The source calls
`processor(buffer)` directly — not through `process_and_catch` — so a raised
exception (`Except.error`) propagates out of the timer callback; otherwise
`Go` resolves, `Error` rejects and anything else rejects with
`asyncio.TimeoutError("Incomplete")`. -/
def sliding_on_timeout {T : Type} (processor : RProcessor T)
    (s : SlidingState T) : Except Exn (SlidingState T) :=
  match s.out with
  | .pending =>
    match processor s.buffer with
    | .error e => .error e
    | .ok (.Go value) => .ok { s with out := .resolved value }
    | .ok (.Error e) => .ok { s with out := .rejected e }
    | .ok _ => .ok { s with out := .rejected (.timeoutError "Incomplete") }
  | _ => .ok s

/-- Feed a single string chunk to a future parser. -/
def future_feed {T : Type} (processor : RProcessor T) (s : FutureState T)
    (chunk : String) : FutureState T :=
  future_listener processor s (Sum.inl chunk)

/-- Lift a pure processor (one that cannot raise) to an `RProcessor`. -/
def pureProc {T : Type} (p : String → FlowResult T) : RProcessor T :=
  fun response => .ok (p response)

/-! ### `elitecloud_alarm/parsing.py` — listener factories and
`elitecloud_alarm/commands.py` — command pipelines -/

/-- The processor closed over by `string_options_listener` /
`string_options_request`. -/
def string_options_processor (options : List String) (case_sensitive : Bool) :
    RProcessor String :=
  pureProc fun response => check_string_with_options response options case_sensitive

/-- The auth-detection processor registered by `EciSession._authenticate`:
`string_options_listener(AUTH_WELCOME_MSG, AUTH_LOGIN_MSG)` with the
`case_sensitive` parameter left at its default `True`. -/
def auth_detection_processor : RProcessor String :=
  string_options_processor [AUTH_WELCOME_MSG, AUTH_LOGIN_MSG] true

/-- `mode_processor` inside `mode_command`: `int(response.strip())`,
`ValueError` → `Error(ValueError("Invalid mode response"))`. -/
def mode_processor (response : String) : FlowResult Int :=
  match pyInt? (pyStrip response) with
  | some v => .Go v
  | none => .Error (.valueError "Invalid mode response")

/-- The composed `processor` inside `mode_command`: wait for two complete
lines, join them with `"\n"`, run `single_line_command_step` (which may
raise), then parse the mode echo and discard. -/
def mode_command_processor (mode : ProtocolMode) (delimiter : String) :
    RProcessor Unit := fun response =>
  let cmd_str := "MODE " ++ toString mode.value
  match bindX ((wait_lines response 2 delimiter).bind fun lines =>
      join_lines lines "\n")
    (fun joined => single_line_command_step joined cmd_str "Mode" delimiter) with
  | .error e => .error e
  | .ok r => .ok ((r.bind mode_processor).bind go_discard)

/-- `get_arming_keyword` (`commands.py`). -/
def get_arming_keyword : ArmingMode → String
  | .AWAY => "ARMAWAY"
  | .STAY => "ARMSTAY"

/-- The composed `processor` inside `arm_user_command` / `arm_area_command`:
`_arm_command_processor` (= `single_line_command_step`) then `strip` then
`parse_int`. -/
def arm_command_processor (command command_keyword delimiter : String) :
    RProcessor Int := fun response =>
  match single_line_command_step response command command_keyword delimiter with
  | .error e => .error e
  | .ok r => .ok ((r.bind strip).bind parse_int)

/-- The processor of `arm_user_command user_id pin mode delimiter` with its
outbound command string. -/
def arm_user_command_processor (user_id pin : Int) (mode : ArmingMode)
    (delimiter : String) : RProcessor Int :=
  let command_keyword := get_arming_keyword mode
  let command := command_keyword ++ " " ++ toString user_id ++ " " ++ toString pin
  arm_command_processor command command_keyword delimiter

end Alarm

/-! ### `arrowhead_alarm/transformers.py`.

The `arrowhead_alarm` package's `types.py` is not under `src/`; its flow
outcome type is modelled from the spec (§3: tagged variant
`Go/Wait/Reject/Error`), matching the constructors the transformers use. -/

namespace Arrowhead

open Alarm (Exn pySplitWs pyUpper pyStartsWith COMMAND_OK_PREFIX COMMAND_ERROR_PREFIX)

/-- Modelled from the spec: the `arrowhead_alarm` flow outcome type
(`Go/Wait/Reject/Error`), whose definition lives in the missing
`arrowhead_alarm/types.py`. -/
inductive FlowResult (T : Type) where
  | Go (value : T)
  | Wait
  | Reject
  | Error (e : Exn)
  deriving DecidableEq, Repr

/-- `command_ok_or_err` (`transformers.py`): `"OK"` → `Go(True)`,
`"ERR"` → `Go(False)`, anything else → `Reject`. -/
def command_ok_or_err (pre : String) : FlowResult Bool :=
  if pre = COMMAND_OK_PREFIX then .Go true
  else if pre = COMMAND_ERROR_PREFIX then .Go false
  else .Reject

/-- `check_string_with_options` (`transformers.py`): identical logic to the
`elitecloud_alarm` version, with `Reject` in place of `Restart`. -/
def check_string_with_options (data : String) (options : List String)
    (case_sensitive : Bool) : FlowResult String :=
  let data_cmp := if case_sensitive then data else pyUpper data
  let options_cmp := if case_sensitive then options else options.map pyUpper
  match options_cmp.find? fun opt => opt = data_cmp with
  | some opt => .Go opt
  | none =>
    if options_cmp.any fun opt => pyStartsWith opt data_cmp then .Wait
    else .Reject

end Arrowhead

namespace Alarm

/-! ### Generic helper lemmas -/

theorem toList_append (a b : String) : (a ++ b).toList = a.toList ++ b.toList := by
  cases a; cases b; rfl

theorem toList_push (s : String) (c : Char) : (s.push c).toList = s.toList ++ [c] := by
  cases s; rfl

theorem mk_toList (s : String) : String.mk s.toList = s := by
  cases s; rfl

/-- Concatenation `s1 ++ s2 ++ … ++ sk` of a chunk list. -/
def concat_chunks (chunks : List String) : String := chunks.foldr (· ++ ·) ""

theorem future_listener_pending {T : Type} (p : RProcessor T) (b : String)
    (r : Sum String Exn) :
    future_listener p ⟨b, .pending⟩ r =
      match r with
      | .inr e => ⟨b, .rejected e⟩
      | .inl str => str.toList.foldl (process_char p) ⟨b, .pending⟩ := rfl

theorem future_listener_done {T : Type} (p : RProcessor T) (s : FutureState T)
    (r : Sum String Exn) (h : s.out ≠ .pending) : future_listener p s r = s := by
  obtain ⟨b, o⟩ := s
  cases o with
  | pending => exact absurd rfl h
  | resolved v => rfl
  | rejected e => rfl

theorem process_char_done {T : Type} (p : RProcessor T) (b : String)
    (o : FutOutcome T) (c : Char) (h : o ≠ .pending) :
    process_char p ⟨b, o⟩ c = ⟨b.push c, o⟩ := by
  cases o with
  | pending => exact absurd rfl h
  | resolved v => rfl
  | rejected e => rfl

theorem charFeed_out_done {T : Type} (p : RProcessor T) (l : List Char) :
    ∀ s : FutureState T, s.out ≠ .pending →
      (l.foldl (process_char p) s).out = s.out := by
  induction l with
  | nil => intro s _; rfl
  | cons c rest ih =>
    intro s h
    obtain ⟨b, o⟩ := s
    rw [List.foldl_cons, process_char_done p b o c h]
    exact ih ⟨b.push c, o⟩ h

theorem future_feed_chunks {T : Type} (p : RProcessor T) (chunks : List String) :
    ∀ s : FutureState T,
      (chunks.foldl (fun s chunk => future_listener p s (Sum.inl chunk)) s).out
        = ((concat_chunks chunks).toList.foldl (process_char p) s).out := by
  induction chunks with
  | nil => intro s; rfl
  | cons c cs ih =>
    intro s
    have hconcat : (concat_chunks (c :: cs)).toList
        = c.toList ++ (concat_chunks cs).toList := by
      show (c ++ concat_chunks cs).toList = _
      exact toList_append _ _
    rw [List.foldl_cons, hconcat, List.foldl_append]
    obtain ⟨b, o⟩ := s
    cases o with
    | pending =>
      rw [future_listener_pending]
      exact ih _
    | resolved v =>
      rw [future_listener_done p _ _ (by simp)]
      rw [ih ⟨b, .resolved v⟩]
      have h1 : (c.toList.foldl (process_char p) ⟨b, .resolved v⟩).out
          = FutOutcome.resolved v := charFeed_out_done p c.toList _ (by simp)
      have hL : ((concat_chunks cs).toList.foldl (process_char p)
          ⟨b, .resolved v⟩).out = FutOutcome.resolved v :=
        charFeed_out_done p _ _ (by simp)
      have hR : ((concat_chunks cs).toList.foldl (process_char p)
          (c.toList.foldl (process_char p) ⟨b, .resolved v⟩)).out
          = FutOutcome.resolved v := by
        rw [charFeed_out_done p _ _ (by rw [h1]; simp)]
        exact h1
      rw [hL, hR]
    | rejected e =>
      rw [future_listener_done p _ _ (by simp)]
      rw [ih ⟨b, .rejected e⟩]
      have h1 : (c.toList.foldl (process_char p) ⟨b, .rejected e⟩).out
          = FutOutcome.rejected e := charFeed_out_done p c.toList _ (by simp)
      have hL : ((concat_chunks cs).toList.foldl (process_char p)
          ⟨b, .rejected e⟩).out = FutOutcome.rejected e :=
        charFeed_out_done p _ _ (by simp)
      have hR : ((concat_chunks cs).toList.foldl (process_char p)
          (c.toList.foldl (process_char p) ⟨b, .rejected e⟩)).out
          = FutOutcome.rejected e := by
        rw [charFeed_out_done p _ _ (by rw [h1]; simp)]
        exact h1
      rw [hL, hR]

theorem queue_feed_chunks {T : Type} (p : RProcessor T) (chunks : List String) :
    ∀ s : QueueState T,
      chunks.foldl (fun s chunk => queue_listener p s (Sum.inl chunk)) s
        = (concat_chunks chunks).toList.foldl (queue_char p) s := by
  induction chunks with
  | nil => intro s; rfl
  | cons c cs ih =>
    intro s
    have hconcat : (concat_chunks (c :: cs)).toList
        = c.toList ++ (concat_chunks cs).toList := by
      show (c ++ concat_chunks cs).toList = _
      exact toList_append _ _
    rw [List.foldl_cons, hconcat, List.foldl_append]
    show cs.foldl _ (queue_listener p s (Sum.inl c)) = _
    rw [ih (queue_listener p s (Sum.inl c))]
    rfl

/-- C1.  For every processor and every chunking of the input, a
future-consumer fed chunk-by-chunk ends with the same final future outcome
(resolution, rejection or still pending — with the same value or exception)
as one fed the whole concatenation in a single sink call, and a
queue-consumer fed either way ends in the same state, in particular with the
same sequence of `Success`/`Fail` queue entries. -/
theorem byte_splitting_invariance (T : Type) (p : RProcessor T)
    (chunks : List String) :
    ((chunks.foldl (fun s chunk => future_listener p s (Sum.inl chunk))
          (future_init T)).out
        = (future_listener p (future_init T)
            (Sum.inl (concat_chunks chunks))).out)
    ∧ ((chunks.foldl (fun s chunk => queue_listener p s (Sum.inl chunk))
          (queue_init T)).queue
        = (queue_listener p (queue_init T)
            (Sum.inl (concat_chunks chunks))).queue) := by
  constructor
  · rw [future_feed_chunks p chunks (future_init T)]
    rfl
  · rw [queue_feed_chunks p chunks (queue_init T)]
    rfl

/-! ### C9 — version ordering -/

/-- Lexicographic order on the version triple, written out as the spec's
tuple comparison. -/
def tupleLt (a b : VersionInfo) : Prop :=
  a.major_version < b.major_version ∨
    (a.major_version = b.major_version ∧
      (a.minor_version < b.minor_version ∨
        (a.minor_version = b.minor_version ∧
          a.patch_version < b.patch_version)))

instance (a b : VersionInfo) : Decidable (tupleLt a b) := by
  unfold tupleLt; infer_instance

theorem versioninfo_gt_iff (a b : VersionInfo) : a.gt b = true ↔ tupleLt b a := by
  unfold VersionInfo.gt tupleLt
  by_cases h1 : a.major_version = b.major_version <;>
    by_cases h2 : a.minor_version = b.minor_version <;>
      simp [h1, h2] <;> omega

theorem versioninfo_eqv_iff (a b : VersionInfo) :
    a.eqv b = true ↔ (a.major_version = b.major_version ∧
      a.minor_version = b.minor_version ∧ a.patch_version = b.patch_version) := by
  unfold VersionInfo.eqv
  simp [and_assoc]

theorem versioninfo_ge_iff (a b : VersionInfo) :
    a.ge b = true ↔ ¬ tupleLt a b := by
  unfold VersionInfo.ge
  rw [Bool.or_eq_true, versioninfo_gt_iff, versioninfo_eqv_iff]
  unfold tupleLt
  constructor
  · intro h
    rcases h with h | h <;> omega
  · intro h
    omega

theorem versioninfo_lt_iff (a b : VersionInfo) :
    a.lt b = true ↔ tupleLt a b := by
  unfold VersionInfo.lt
  rw [Bool.not_eq_eq_eq_not, Bool.not_true, ← Bool.not_eq_true,
    versioninfo_ge_iff]
  unfold tupleLt
  constructor
  · intro h; omega
  · intro h; omega

theorem versioninfo_le_iff (a b : VersionInfo) :
    a.le b = true ↔ ¬ tupleLt b a := by
  unfold VersionInfo.le
  rw [Bool.not_eq_eq_eq_not, Bool.not_true, ← Bool.not_eq_true,
    versioninfo_gt_iff]

/-- C9.  `VersionInfo` comparison is the total lexicographic order on
`(major_version, minor_version, patch_version)`: each operator agrees with
tuple comparison, exactly one of `a < b`, `a == b`, `a > b` holds, equality
depends only on the three components, mode-4 support holds iff the version
is at least `(10, 3, 50)`, and `10.3.52 < 10.4.0 < 11.0.0`. -/
theorem versioninfo_total_lexicographic_order (a b : VersionInfo) :
    (a.lt b = true ↔ tupleLt a b)
    ∧ (a.gt b = true ↔ tupleLt b a)
    ∧ (a.le b = true ↔ ¬ tupleLt b a)
    ∧ (a.ge b = true ↔ ¬ tupleLt a b)
    ∧ (a.eqv b = true ↔ (a.major_version = b.major_version ∧
        a.minor_version = b.minor_version ∧ a.patch_version = b.patch_version))
    ∧ (a.eqv b = true ↔ a = b)
    ∧ ((a.lt b = true ∧ a.eqv b = false ∧ a.gt b = false)
        ∨ (a.lt b = false ∧ a.eqv b = true ∧ a.gt b = false)
        ∨ (a.lt b = false ∧ a.eqv b = false ∧ a.gt b = true))
    ∧ (is_mode_4_supported a = true ↔ ¬ tupleLt a ⟨10, 3, 50⟩)
    ∧ (VersionInfo.lt ⟨10, 3, 52⟩ ⟨10, 4, 0⟩ = true
        ∧ VersionInfo.lt ⟨10, 4, 0⟩ ⟨11, 0, 0⟩ = true) := by
  refine ⟨versioninfo_lt_iff a b, versioninfo_gt_iff a b, versioninfo_le_iff a b,
    versioninfo_ge_iff a b, versioninfo_eqv_iff a b, ?_, ?_, ?_, by decide, by decide⟩
  · rw [versioninfo_eqv_iff]
    constructor
    · rintro ⟨h1, h2, h3⟩
      cases a; cases b
      simp_all
    · rintro rfl
      exact ⟨rfl, rfl, rfl⟩
  · have hlt := versioninfo_lt_iff a b
    have hgt := versioninfo_gt_iff a b
    have heq := versioninfo_eqv_iff a b
    by_cases hab : tupleLt a b
    · refine Or.inl ⟨hlt.mpr hab, ?_, ?_⟩
      · rw [Bool.eq_false_iff]
        intro hc
        have := heq.mp (by simpa using hc)
        unfold tupleLt at hab; omega
      · rw [Bool.eq_false_iff]
        intro hc
        have := hgt.mp (by simpa using hc)
        unfold tupleLt at hab this; omega
    · by_cases hba : tupleLt b a
      · refine Or.inr (Or.inr ⟨?_, ?_, hgt.mpr hba⟩)
        · rw [Bool.eq_false_iff]
          intro hc
          exact hab (hlt.mp (by simpa using hc))
        · rw [Bool.eq_false_iff]
          intro hc
          have := heq.mp (by simpa using hc)
          unfold tupleLt at hba; omega
      · refine Or.inr (Or.inl ⟨?_, heq.mpr ?_, ?_⟩)
        · rw [Bool.eq_false_iff]
          intro hc
          exact hab (hlt.mp (by simpa using hc))
        · unfold tupleLt at hab hba; omega
        · rw [Bool.eq_false_iff]
          intro hc
          exact hba (hgt.mp (by simpa using hc))
  · exact versioninfo_ge_iff a ⟨10, 3, 50⟩

/-- Witness for C9 at `a = (10,3,52)`, `b = (10,4,0)`. -/
theorem versioninfo_total_lexicographic_order_witness :
    (VersionInfo.lt ⟨10, 3, 52⟩ ⟨10, 4, 0⟩ = true)
    ∧ is_mode_4_supported ⟨10, 3, 52⟩ = true := by
  have h := versioninfo_total_lexicographic_order ⟨10, 3, 52⟩ ⟨10, 4, 0⟩
  exact ⟨h.1.mpr (by decide), h.2.2.2.2.2.2.2.1.mpr (by decide)⟩

/-! ### C3 — the OK/ERR discriminator on an unrecognized first token -/

/-- C3 counterexample.  The complete line `"FOO 1"` has first token `"FOO"`,
neither `"OK"` nor `"ERR"`, yet the `elitecloud_alarm` discriminator
`catch_command_error` returns `Wait`, not `Restart` (the code's `Reject`):
the consuming adapter keeps its buffer instead of clearing it. -/
theorem catch_command_error_unknown_token_counterexample :
    catch_command_error "FOO 1" "ARMAWAY 1" = FlowResult.Wait
    ∧ catch_command_error "FOO 1" "ARMAWAY 1" ≠ FlowResult.Restart := by
  decide

/-- C3 (amended).  On a complete line whose first space-separated token is
neither `"OK"` nor `"ERR"`, the `arrowhead_alarm` discriminator
`command_ok_or_err` returns `Reject`, while the `elitecloud_alarm`
discriminator `catch_command_error` returns `Wait` (keeping the buffer). -/
theorem ok_or_err_discriminator_unknown_token (response command w0 : String)
    (rest : List String) (hsplit : pySplitWs response = w0 :: rest)
    (hok : w0 ≠ "OK") (herr : w0 ≠ "ERR") :
    catch_command_error response command = FlowResult.Wait
    ∧ Arrowhead.command_ok_or_err w0 = Arrowhead.FlowResult.Reject := by
  constructor
  · unfold catch_command_error
    rw [hsplit]
    simp only [COMMAND_OK_PREFIX, COMMAND_ERROR_PREFIX, hok, herr, if_false]
  · unfold Arrowhead.command_ok_or_err
    simp only [COMMAND_OK_PREFIX, COMMAND_ERROR_PREFIX, hok, herr, if_false]

/-- Witness for C3 (amended) on the line `"FOO 1"`. -/
theorem ok_or_err_discriminator_unknown_token_witness :
    catch_command_error "FOO 1" "ARMAWAY" = FlowResult.Wait
    ∧ Arrowhead.command_ok_or_err "FOO" = Arrowhead.FlowResult.Reject :=
  ok_or_err_discriminator_unknown_token "FOO 1" "ARMAWAY" "FOO" ["1"]
    (by decide) (by decide) (by decide)

/-! ### C4 — case sensitivity of the auth-detection consumer -/

/-- C4 counterexample.  The session's auth-detection listener
(`string_options_listener(AUTH_WELCOME_MSG, AUTH_LOGIN_MSG)`, with the
`case_sensitive` parameter left at its default `True`) fed the lower-case
welcome banner `"welcome"` leaves the future pending: it does not resolve
with the expected option, contradicting the claimed case-insensitive
registration. -/
theorem auth_detection_lowercase_counterexample :
    (future_feed auth_detection_processor (future_init String) "welcome").out
        = FutOutcome.pending
    ∧ (future_feed auth_detection_processor (future_init String) "welcome").out
        ≠ FutOutcome.resolved AUTH_WELCOME_MSG := by
  decide

/-- C4 (amended).  `EciSession._authenticate` registers the welcome/login
option-match consumer case-SENSITIVELY (the `string_options_listener`
default): the exact literals `"WELCOME"` and `"LOGIN:"` resolve the
auth-detection future with the matched option, while an input differing
only in letter case (the lower-case banner `"welcome"`) is restarted on
every character and never resolves it. -/
theorem auth_detection_case_sensitive :
    (future_feed auth_detection_processor (future_init String)
        AUTH_WELCOME_MSG).out = FutOutcome.resolved AUTH_WELCOME_MSG
    ∧ (future_feed auth_detection_processor (future_init String)
        AUTH_LOGIN_MSG).out = FutOutcome.resolved AUTH_LOGIN_MSG
    ∧ (future_feed auth_detection_processor (future_init String)
        "welcome").out = FutOutcome.pending := by
  decide

/-! ### C2 — the MODE command round trip -/

/-- C2.  Feeding the documented two-line response `"OK Mode\n4\n"` to the
consumer of `mode_command(MODE_4, "\n")` does NOT resolve the pending
result with `None`: the pipeline joins the two lines, then
`single_line_command_step` re-splits on the delimiter and keeps only the
first line, so the echoed `"4"` is dropped, `mode_processor` parses the
empty remainder, and the future is rejected with
`ValueError("Invalid mode response")`.  (The code also never compares the
echoed integer against the requested mode.) -/
theorem mode_command_rejects_documented_response :
    (future_feed (mode_command_processor .MODE_4 "\n") (future_init Unit)
        "OK Mode\n4\n").out
      = FutOutcome.rejected (Exn.valueError "Invalid mode response") := by
  decide

/-! ### C7 — the user-arm command round trip -/

/-- C7.  For the pipeline of `arm_user_command(1, 123, AWAY, "\n")` (command
keyword `ARMAWAY`): feeding `"OK ARMAWAY 1\n"` resolves the pending result
with the integer `1`; feeding `"ERR 3\n"` rejects it with
`CommandNotAllowed`; feeding `"OK ARMAWAY X\n"` rejects it with the
integer-parse `ValueError`. -/
theorem arm_user_command_round_trip :
    (future_feed (arm_user_command_processor 1 123 .AWAY "\n")
        (future_init Int) "OK ARMAWAY 1\n").out = FutOutcome.resolved 1
    ∧ (future_feed (arm_user_command_processor 1 123 .AWAY "\n")
        (future_init Int) "ERR 3\n").out
      = FutOutcome.rejected (Exn.commandNotAllowed "ARMAWAY 1 123" "ERR 3")
    ∧ (future_feed (arm_user_command_processor 1 123 .AWAY "\n")
        (future_init Int) "OK ARMAWAY X\n").out
      = FutOutcome.rejected
          (Exn.valueError "invalid literal for int() with base 10: X") := by
  decide

/-! ### C6 — the option-match transformer -/

/-- The case normalization both option matchers apply before comparing. -/
def caseNorm (case_sensitive : Bool) (s : String) : String :=
  if case_sensitive then s else pyUpper s

theorem find?_eq_some_caseNorm (l : List String) (t : String) (x : String)
    (h : l.find? (fun opt => opt = t) = some x) : x = t := by
  have := List.find?_some h
  simpa using this

theorem option_match_eci_eq (response : String) (options : List String)
    (cs : Bool) :
    check_string_with_options response options cs =
      (if options.any fun o => caseNorm cs o = caseNorm cs response then
        FlowResult.Go (caseNorm cs response)
      else if options.any fun o =>
          pyStartsWith (caseNorm cs o) (caseNorm cs response) then
        FlowResult.Wait
      else FlowResult.Restart) := by
  unfold check_string_with_options caseNorm
  cases cs with
  | true =>
    simp only [if_true, if_pos rfl]
    cases hfind : options.find? (fun opt => opt = response) with
    | some opt =>
      have hx : opt = response := find?_eq_some_caseNorm options response opt hfind
      have hmem : opt ∈ options := List.mem_of_find?_eq_some hfind
      have hany : (options.any fun o => o = response) = true := by
        rw [List.any_eq_true]
        exact ⟨opt, hmem, by simpa using hx⟩
      simp only [hany, if_true, hx]
    | none =>
      have hnone : ∀ o ∈ options, ¬ (o = response) := by
        intro o ho
        have := List.find?_eq_none.mp hfind o ho
        simpa using this
      have hany : (options.any fun o => o = response) = false := by
        rw [Bool.eq_false_iff]
        intro hc
        obtain ⟨o, ho, hco⟩ := List.any_eq_true.mp hc
        exact hnone o ho (by simpa using hco)
      simp only [hany, Bool.false_eq_true, if_false]
  | false =>
    simp only [Bool.false_eq_true, if_false]
    rw [List.find?_map, List.any_map]
    cases hfind : options.find? ((fun opt => opt = pyUpper response) ∘ pyUpper) with
    | some opt =>
      have hx : pyUpper opt = pyUpper response := by
        have := List.find?_some hfind
        simpa using this
      have hmem : opt ∈ options := List.mem_of_find?_eq_some hfind
      have hany : (options.any ((fun o => o = pyUpper response) ∘ pyUpper)) = true := by
        rw [List.any_eq_true]
        exact ⟨opt, hmem, by simpa using hx⟩
      simp only [Option.map_some', Function.comp_def, List.any_eq_true,
        decide_eq_true_eq]
      rw [hx]
      rw [if_pos ⟨opt, hmem, hx⟩]
    | none =>
      have hnone : ∀ o ∈ options, ¬ (pyUpper o = pyUpper response) := by
        intro o ho
        have := List.find?_eq_none.mp hfind o ho
        simpa using this
      have hany : (options.any ((fun o => o = pyUpper response) ∘ pyUpper)) = false := by
        rw [Bool.eq_false_iff]
        intro hc
        obtain ⟨o, ho, hco⟩ := List.any_eq_true.mp hc
        exact hnone o ho (by simpa using hco)
      simp only [Option.map_none', Function.comp_def, List.any_eq_true,
        decide_eq_true_eq]
      have hex : ¬ ∃ x ∈ options, pyUpper x = pyUpper response := by
        rintro ⟨o, ho, hco⟩
        exact hnone o ho hco
      rw [if_neg hex]

theorem option_match_arrowhead_eq (data : String) (options : List String)
    (cs : Bool) :
    Arrowhead.check_string_with_options data options cs =
      (if options.any fun o => caseNorm cs o = caseNorm cs data then
        Arrowhead.FlowResult.Go (caseNorm cs data)
      else if options.any fun o =>
          pyStartsWith (caseNorm cs o) (caseNorm cs data) then
        Arrowhead.FlowResult.Wait
      else Arrowhead.FlowResult.Reject) := by
  unfold Arrowhead.check_string_with_options caseNorm
  cases cs with
  | true =>
    simp only [if_true, if_pos rfl]
    cases hfind : options.find? (fun opt => opt = data) with
    | some opt =>
      have hx : opt = data := find?_eq_some_caseNorm options data opt hfind
      have hmem : opt ∈ options := List.mem_of_find?_eq_some hfind
      have hany : (options.any fun o => o = data) = true := by
        rw [List.any_eq_true]
        exact ⟨opt, hmem, by simpa using hx⟩
      simp only [hany, if_true, hx]
    | none =>
      have hnone : ∀ o ∈ options, ¬ (o = data) := by
        intro o ho
        have := List.find?_eq_none.mp hfind o ho
        simpa using this
      have hany : (options.any fun o => o = data) = false := by
        rw [Bool.eq_false_iff]
        intro hc
        obtain ⟨o, ho, hco⟩ := List.any_eq_true.mp hc
        exact hnone o ho (by simpa using hco)
      simp only [hany, Bool.false_eq_true, if_false]
  | false =>
    simp only [Bool.false_eq_true, if_false]
    rw [List.find?_map, List.any_map]
    cases hfind : options.find? ((fun opt => opt = pyUpper data) ∘ pyUpper) with
    | some opt =>
      have hx : pyUpper opt = pyUpper data := by
        have := List.find?_some hfind
        simpa using this
      have hmem : opt ∈ options := List.mem_of_find?_eq_some hfind
      have hany : (options.any ((fun o => o = pyUpper data) ∘ pyUpper)) = true := by
        rw [List.any_eq_true]
        exact ⟨opt, hmem, by simpa using hx⟩
      simp only [Option.map_some', Function.comp_def, List.any_eq_true,
        decide_eq_true_eq]
      rw [hx]
      rw [if_pos ⟨opt, hmem, hx⟩]
    | none =>
      have hnone : ∀ o ∈ options, ¬ (pyUpper o = pyUpper data) := by
        intro o ho
        have := List.find?_eq_none.mp hfind o ho
        simpa using this
      have hany : (options.any ((fun o => o = pyUpper data) ∘ pyUpper)) = false := by
        rw [Bool.eq_false_iff]
        intro hc
        obtain ⟨o, ho, hco⟩ := List.any_eq_true.mp hc
        exact hnone o ho (by simpa using hco)
      simp only [Option.map_none', Function.comp_def, List.any_eq_true,
        decide_eq_true_eq]
      have hex : ¬ ∃ x ∈ options, pyUpper x = pyUpper data := by
        rintro ⟨o, ho, hco⟩
        exact hnone o ho hco
      rw [if_neg hex]

/-- C6.  For every input, option list and case-sensitivity flag, both
option-match transformers return `Go` of the (case-normalized) input when
the input equals some option under the chosen casing, otherwise `Wait` when
the input is a prefix of some option, and otherwise `Restart`/`Reject`;
and with options `{"WELCOME", "LOGIN"}` the inputs `"W"`, …, `"WELCOM"`
yield `Wait`, `"WELCOME"` yields `Go("WELCOME")` and `"X"` yields the
reject outcome. -/
theorem option_match_progression (response : String) (options : List String)
    (cs : Bool) :
    (check_string_with_options response options cs =
      (if options.any fun o => caseNorm cs o = caseNorm cs response then
        FlowResult.Go (caseNorm cs response)
      else if options.any fun o =>
          pyStartsWith (caseNorm cs o) (caseNorm cs response) then
        FlowResult.Wait
      else FlowResult.Restart))
    ∧ (Arrowhead.check_string_with_options response options cs =
      (if options.any fun o => caseNorm cs o = caseNorm cs response then
        Arrowhead.FlowResult.Go (caseNorm cs response)
      else if options.any fun o =>
          pyStartsWith (caseNorm cs o) (caseNorm cs response) then
        Arrowhead.FlowResult.Wait
      else Arrowhead.FlowResult.Reject))
    ∧ (∀ s ∈ ["W", "WE", "WEL", "WELC", "WELCO", "WELCOM"],
        check_string_with_options s ["WELCOME", "LOGIN"] true = FlowResult.Wait
        ∧ Arrowhead.check_string_with_options s ["WELCOME", "LOGIN"] true
          = Arrowhead.FlowResult.Wait)
    ∧ check_string_with_options "WELCOME" ["WELCOME", "LOGIN"] true
        = FlowResult.Go "WELCOME"
    ∧ Arrowhead.check_string_with_options "WELCOME" ["WELCOME", "LOGIN"] true
        = Arrowhead.FlowResult.Go "WELCOME"
    ∧ check_string_with_options "X" ["WELCOME", "LOGIN"] true
        = FlowResult.Restart
    ∧ Arrowhead.check_string_with_options "X" ["WELCOME", "LOGIN"] true
        = Arrowhead.FlowResult.Reject :=
  ⟨option_match_eci_eq response options cs,
    option_match_arrowhead_eq response options cs,
    by decide, by decide, by decide, by decide, by decide⟩

/-- Witness for C6 at input `"W"` with options `{"WELCOME", "LOGIN"}`. -/
theorem option_match_progression_witness :
    check_string_with_options "W" ["WELCOME", "LOGIN"] true = FlowResult.Wait
    ∧ Arrowhead.check_string_with_options "W" ["WELCOME", "LOGIN"] true
      = Arrowhead.FlowResult.Wait :=
  (option_match_progression "W" ["WELCOME", "LOGIN"] true).2.2.1 "W" (by decide)

/-! ### C8 — notification message parsing -/

theorem take_firstDigitIdx (l : List Char) :
    l.take (firstDigitIdx l) = l.takeWhile fun c => !c.isDigit := by
  induction l with
  | nil => rfl
  | cons c rest ih =>
    unfold firstDigitIdx
    rw [List.takeWhile_cons]
    by_cases hc : c.isDigit
    · simp [hc]
    · simp [hc, ih]

theorem drop_firstDigitIdx (l : List Char) :
    l.drop (firstDigitIdx l) = l.dropWhile fun c => !c.isDigit := by
  induction l with
  | nil => rfl
  | cons c rest ih =>
    unfold firstDigitIdx
    rw [List.dropWhile_cons]
    by_cases hc : c.isDigit
    · simp [hc]
    · simp [hc, ih]

theorem all_not_takeWhile (p : Char → Bool) (l : List Char) :
    (l.takeWhile fun c => !p c).all (fun c => !p c) = true := by
  induction l with
  | nil => rfl
  | cons c rest ih =>
    rw [List.takeWhile_cons]
    by_cases hc : p c
    · simp [hc]
    · have hc' : (!p c) = true := by simp [hc]
      rw [hc', if_pos rfl, List.all_cons, hc', Bool.true_and]
      exact ih

theorem takeWhile_maximal (p : Char → Bool) (l q : List Char)
    (hq : q.isPrefixOf l = true) (hall : q.all (fun c => !p c) = true) :
    q.length ≤ (l.takeWhile fun c => !p c).length := by
  induction q generalizing l with
  | nil => simp
  | cons c q' ih =>
    cases l with
    | nil => simp [List.isPrefixOf] at hq
    | cons d rest =>
      simp only [List.isPrefixOf, Bool.and_eq_true, beq_iff_eq] at hq
      obtain ⟨rfl, hq'⟩ := hq
      simp only [List.all_cons, Bool.and_eq_true] at hall
      rw [List.takeWhile_cons, hall.1, if_pos rfl]
      simp only [List.length_cons, Nat.succ_le_succ_iff]
      exact ih rest hq' hall.2

theorem digitsVal_append (l : List Char) (c : Char) :
    digitsVal (l ++ [c]) = 10 * digitsVal l + (c.toNat - 48) := by
  simp [digitsVal, List.foldl_append]

theorem digitsVal_eq_ofDigits (l : List Char) :
    digitsVal l = Nat.ofDigits 10 ((l.map fun c => c.toNat - 48).reverse) := by
  induction l using List.reverseRecOn with
  | nil => rfl
  | append_singleton l c ih =>
    rw [digitsVal_append, ih]
    simp only [List.map_append, List.map_cons, List.map_nil,
      List.reverse_append, List.reverse_cons, List.reverse_nil,
      List.nil_append, List.cons_append, Nat.ofDigits_cons]
    ring

/-- C8.  `AlarmMessage.parse` (a total function — it never raises) returns
a message whose `message_type` is the longest prefix of the input containing
no decimal digit (it is a digit-free prefix, and no digit-free prefix is
longer), and whose `number` is the decimal value of the remaining suffix
when that suffix is non-empty and all digits, and `None` otherwise. -/
theorem alarm_message_parse_spec (m : String) :
    ((AlarmMessage.parse m).message_type.toList
        = m.toList.takeWhile fun c => !c.isDigit)
    ∧ ((AlarmMessage.parse m).message_type.toList.all
        (fun c => !c.isDigit) = true)
    ∧ (∀ q : List Char, q.isPrefixOf m.toList = true →
        q.all (fun c => !c.isDigit) = true →
        q.length ≤ (AlarmMessage.parse m).message_type.length)
    ∧ ((AlarmMessage.parse m).number =
        (if (m.toList.dropWhile fun c => !c.isDigit) ≠ []
            ∧ allDigits (m.toList.dropWhile fun c => !c.isDigit) = true then
          some ((Nat.ofDigits 10
            (((m.toList.dropWhile fun c => !c.isDigit).map
              fun c => c.toNat - 48).reverse) : Nat) : Int)
        else none)) := by
  have htake : (AlarmMessage.parse m).message_type.toList
      = m.toList.takeWhile fun c => !c.isDigit := by
    show (String.mk (m.toList.take (firstDigitIdx m.toList))).toList = _
    show m.toList.take (firstDigitIdx m.toList) = _
    exact take_firstDigitIdx _
  refine ⟨htake, ?_, ?_, ?_⟩
  · rw [htake]
    exact all_not_takeWhile _ _
  · intro q hq hall
    have hlen : (AlarmMessage.parse m).message_type.length
        = (AlarmMessage.parse m).message_type.toList.length := rfl
    rw [hlen, htake]
    exact takeWhile_maximal _ _ q hq hall
  · have hnum : (AlarmMessage.parse m).number
        = (if pyIsDigit (String.mk (m.toList.drop (firstDigitIdx m.toList)))
            then some ((digitsVal
              (m.toList.drop (firstDigitIdx m.toList)) : Nat) : Int)
          else none) := rfl
    rw [hnum, drop_firstDigitIdx]
    have hTL : (String.mk (m.toList.dropWhile fun c => !c.isDigit)).toList
        = m.toList.dropWhile fun c => !c.isDigit := rfl
    unfold pyIsDigit
    rw [hTL, digitsVal_eq_ofDigits]
    by_cases h1 : (m.toList.dropWhile fun c => !c.isDigit) = []
    · rw [if_neg (by
          simp only [Bool.and_eq_true, decide_eq_true_eq]
          rintro ⟨hx, _⟩
          exact hx h1),
        if_neg (by rintro ⟨hx, _⟩; exact hx h1)]
    · by_cases h2 : allDigits (m.toList.dropWhile fun c => !c.isDigit) = true
      · rw [if_pos (by
            simp only [Bool.and_eq_true, decide_eq_true_eq]
            exact ⟨h1, h2⟩),
          if_pos ⟨h1, h2⟩]
      · rw [if_neg (by
            simp only [Bool.and_eq_true, decide_eq_true_eq]
            rintro ⟨_, hy⟩
            exact h2 hy),
          if_neg (by rintro ⟨_, hy⟩; exact h2 hy)]

/-! ### C5 — exception catching at the consumer boundary -/

/-- A processor that raises (`Except.error`) on the empty buffer and asks
for a restart on anything else; used to reach the sliding-timeout's final
transformer run with a buffer on which the processor raises. -/
def raising_processor : RProcessor Unit := fun s =>
  if s = "" then Except.error (Exn.valueError "boom") else .ok .Restart

/-- A processor that raises (`Except.error`) exactly on the buffer
`"x"`. -/
def raising_processor_x : RProcessor Unit := fun s =>
  if s = "x" then Except.error (Exn.valueError "boom2") else .ok .Wait

/-- C5 counterexample.  Feed `"x"` to a sliding-timeout consumer over
`raising_processor`: the character loop restarts (clearing the buffer) and
leaves the future pending; at timer expiry the source calls
`processor(buffer)` directly, the processor raises on the empty buffer, and
the exception propagates out of the timer callback (`Except.error`) instead
of rejecting the future — contradicting the claim that every path catches
and surfaces processor exceptions. -/
theorem sliding_timeout_exception_escapes_counterexample :
    (sliding_listener raising_processor (sliding_init Unit) (Sum.inl "x")).out
        = FutOutcome.pending
    ∧ sliding_on_timeout raising_processor
        (sliding_listener raising_processor (sliding_init Unit) (Sum.inl "x"))
      = Except.error (Exn.valueError "boom") := by
  decide

/-- C5 (amended).  An exception raised by the processor during character
processing is caught by every consumer adapter and surfaced as an `Error`
outcome — the future-consumer and the sliding-timeout consumer reject their
pending future with it, the queue-consumer enqueues `Fail` and clears its
buffer.  But the sliding-timeout consumer's final transformer run at timer
expiry invokes the processor directly (not through `process_and_catch`), so
an exception raised there propagates out of the timer callback. -/
theorem consumer_adapters_catch (T : Type) (p : RProcessor T)
    (s : FutureState T) (qs : QueueState T) (ss : SlidingState T) (c : Char)
    (e : Exn) :
    (s.out = .pending → p (s.buffer.push c) = .error e →
      (process_char p s c).out = .rejected e)
    ∧ (p (qs.buffer.push c) = .error e →
      queue_char p qs c = ⟨"", qs.queue ++ [.Fail e]⟩)
    ∧ (ss.out = .pending → p (ss.buffer.push c) = .error e →
      (sliding_char p ss c).out = .rejected e)
    ∧ (ss.out = .pending → p ss.buffer = .error e →
      sliding_on_timeout p ss = .error e) := by
  refine ⟨?_, ?_, ?_, ?_⟩
  · intro hpend hp
    obtain ⟨b, o⟩ := s
    cases o with
    | pending =>
      unfold process_char process_and_catch
      dsimp only at hp ⊢
      rw [hp]
    | resolved v => exact absurd hpend (by simp)
    | rejected e2 => exact absurd hpend (by simp)
  · intro hp
    unfold queue_char process_and_catch
    dsimp only at hp ⊢
    rw [hp]
  · intro hpend hp
    obtain ⟨b, t, o⟩ := ss
    cases o with
    | pending =>
      unfold sliding_char process_and_catch
      dsimp only at hp ⊢
      rw [hp]
    | resolved v => exact absurd hpend (by simp)
    | rejected e2 => exact absurd hpend (by simp)
  · intro hpend hp
    obtain ⟨b, t, o⟩ := ss
    cases o with
    | pending =>
      unfold sliding_on_timeout
      dsimp only at hp ⊢
      rw [hp]
    | resolved v => exact absurd hpend (by simp)
    | rejected e2 => exact absurd hpend (by simp)

/-- Witness for C5 (amended) with `raising_processor_x` (which raises on
the buffer `"x"`) at concrete initial states. -/
theorem consumer_adapters_catch_witness :
    ((process_char raising_processor_x (future_init Unit) 'x').out
        = FutOutcome.rejected (Exn.valueError "boom2"))
    ∧ (queue_char raising_processor_x (queue_init Unit) 'x'
        = ⟨"", (queue_init Unit).queue ++ [Result.Fail (Exn.valueError "boom2")]⟩)
    ∧ ((sliding_char raising_processor_x (sliding_init Unit) 'x').out
        = FutOutcome.rejected (Exn.valueError "boom2"))
    ∧ (sliding_on_timeout raising_processor_x ⟨"x", true, FutOutcome.pending⟩
        = Except.error (Exn.valueError "boom2")) := by
  have h1 := consumer_adapters_catch Unit raising_processor_x (future_init Unit)
    (queue_init Unit) (sliding_init Unit) 'x' (Exn.valueError "boom2")
  have h2 := consumer_adapters_catch Unit raising_processor_x (future_init Unit)
    (queue_init Unit) ⟨"x", true, FutOutcome.pending⟩ 'x'
    (Exn.valueError "boom2")
  exact ⟨h1.1 rfl (by decide), h1.2.1 (by decide), h1.2.2.1 rfl (by decide),
    h2.2.2.2 rfl (by decide)⟩

/-- Witness for C8 at the notification `"ZO5"` with the digit-free prefix
candidate `['Z']`. -/
theorem alarm_message_parse_spec_witness :
    ((AlarmMessage.parse "ZO5").message_type.toList
        = "ZO5".toList.takeWhile fun c => !c.isDigit)
    ∧ ['Z'].length ≤ (AlarmMessage.parse "ZO5").message_type.length :=
  ⟨(alarm_message_parse_spec "ZO5").1,
    (alarm_message_parse_spec "ZO5").2.2.1 ['Z'] (by decide) (by decide)⟩

/-! ### Properties of the split models (used for C10) -/

theorem toList_mk (l : List Char) : (String.mk l).toList = l := rfl

theorem pySplitGo_succ_cons (sep : List Char) (f : Nat) (c : Char)
    (rest acc : List Char) :
    pySplitGo sep (f + 1) (c :: rest) acc =
      if sep.isPrefixOf (c :: rest) then
        acc.reverse :: pySplitGo sep f ((c :: rest).drop sep.length) []
      else pySplitGo sep f rest (c :: acc) := rfl

theorem singleton_isPrefixOf_cons (d c : Char) (rest : List Char) :
    [d].isPrefixOf (c :: rest) = (d == c) := by
  simp [List.isPrefixOf]

theorem pySplitGo_no_sep (d : Char) (l : List Char) :
    ∀ (fuel : Nat) (acc : List Char), d ∉ l →
      pySplitGo [d] fuel l acc = [acc.reverse ++ l] := by
  induction l with
  | nil =>
    intro fuel acc _
    cases fuel <;> simp [pySplitGo]
  | cons c rest ih =>
    intro fuel acc hd
    have hdc : d ≠ c := fun h => hd (h ▸ List.mem_cons_self c rest)
    have hdr : d ∉ rest := fun h => hd (List.mem_cons_of_mem c h)
    cases fuel with
    | zero => simp [pySplitGo]
    | succ f =>
      rw [pySplitGo_succ_cons, singleton_isPrefixOf_cons]
      rw [if_neg (by simp [hdc])]
      rw [ih f (c :: acc) hdr]
      simp

theorem pySplitGo_sep_concat (d : Char) (l2 : List Char) (l1 : List Char) :
    ∀ (fuel : Nat) (acc : List Char), d ∉ l1 →
      fuel = (l1 ++ d :: l2).length →
      pySplitGo [d] fuel (l1 ++ d :: l2) acc
        = (acc.reverse ++ l1) :: pySplitGo [d] l2.length l2 [] := by
  induction l1 with
  | nil =>
    intro fuel acc _ hfuel
    simp only [List.nil_append, List.length_cons] at hfuel
    subst hfuel
    rw [List.nil_append, pySplitGo_succ_cons, singleton_isPrefixOf_cons]
    rw [if_pos (by simp)]
    simp
  | cons c rest ih =>
    intro fuel acc hd hfuel
    have hdc : d ≠ c := fun h => hd (h ▸ List.mem_cons_self c rest)
    have hdr : d ∉ rest := fun h => hd (List.mem_cons_of_mem c h)
    simp only [List.cons_append, List.length_cons] at hfuel
    subst hfuel
    rw [List.cons_append, pySplitGo_succ_cons, singleton_isPrefixOf_cons]
    rw [if_neg (by simp [hdc])]
    rw [ih _ (c :: acc) hdr rfl]
    simp

theorem pySplitGo_ne_nil (sep : List Char) :
    ∀ (fuel : Nat) (l acc : List Char), pySplitGo sep fuel l acc ≠ [] := by
  intro fuel
  induction fuel with
  | zero =>
    intro l acc
    cases l <;> simp [pySplitGo]
  | succ f ih =>
    intro l acc
    cases l with
    | nil => simp [pySplitGo]
    | cons c rest =>
      unfold pySplitGo
      by_cases hpre : sep.isPrefixOf (c :: rest)
      · simp [hpre]
      · rw [if_neg hpre]
        exact ih rest (c :: acc)

theorem data_mk (l : List Char) : (String.mk l).data = l := rfl

theorem pySplit_no_newline (l : List Char) (h : '\n' ∉ l) :
    pySplit (String.mk l) "\n" = [String.mk l] := by
  unfold pySplit
  rw [if_neg (by decide)]
  simp only [data_mk, toList_mk,
    show ("\n" : String).data = ['\n'] from rfl,
    show ("\n" : String).toList = ['\n'] from rfl]
  rw [pySplitGo_no_sep '\n' l _ [] h]
  simp

theorem pySplit_newline_concat (l1 l2 : List Char) (h : '\n' ∉ l1) :
    pySplit (String.mk (l1 ++ '\n' :: l2)) "\n"
      = String.mk l1 :: pySplit (String.mk l2) "\n" := by
  unfold pySplit
  rw [if_neg (by decide), if_neg (by decide)]
  simp only [data_mk, toList_mk,
    show ("\n" : String).data = ['\n'] from rfl,
    show ("\n" : String).toList = ['\n'] from rfl]
  rw [pySplitGo_sep_concat '\n' l2 l1 _ [] h rfl]
  simp

theorem pySplit_ne_nil (s sep : String) : pySplit s sep ≠ [] := by
  unfold pySplit
  split
  · simp
  · simp only [ne_eq, List.map_eq_nil_iff]
    exact pySplitGo_ne_nil _ _ _ []

theorem splitWsGo_tokens (l : List Char) :
    ∀ acc, (∀ c ∈ acc, pyIsSpace c = false) →
      ∀ tok ∈ splitWsGo l acc, tok ≠ [] ∧ ∀ c ∈ tok, pyIsSpace c = false := by
  induction l with
  | nil =>
    intro acc hacc tok htok
    unfold splitWsGo at htok
    by_cases hne : acc = []
    · simp [hne] at htok
    · rw [if_neg hne] at htok
      simp only [List.mem_singleton] at htok
      subst htok
      refine ⟨by simpa using hne, ?_⟩
      intro c hc
      exact hacc c (List.mem_reverse.mp hc)
  | cons c rest ih =>
    intro acc hacc tok htok
    unfold splitWsGo at htok
    by_cases hsp : pyIsSpace c
    · rw [if_pos hsp] at htok
      by_cases hne : acc = []
      · rw [if_pos hne] at htok
        exact ih [] (by simp) tok htok
      · rw [if_neg hne] at htok
        rcases List.mem_cons.mp htok with h | h
        · subst h
          refine ⟨by simpa using hne, ?_⟩
          intro x hx
          exact hacc x (List.mem_reverse.mp hx)
        · exact ih [] (by simp) tok h
    · rw [if_neg hsp] at htok
      refine ih (c :: acc) ?_ tok htok
      intro x hx
      rcases List.mem_cons.mp hx with h | h
      · subst h
        simpa using hsp
      · exact hacc x h

theorem pySplitWs_tokens (s : String) :
    ∀ tok ∈ pySplitWs s, tok.toList ≠ [] ∧ ∀ c ∈ tok.toList, pyIsSpace c = false := by
  intro tok htok
  unfold pySplitWs at htok
  obtain ⟨l, hl, rfl⟩ := List.mem_map.mp htok
  have := splitWsGo_tokens s.toList [] (by simp) l hl
  rw [toList_mk]
  exact this

theorem splitWsGo_cons (c : Char) (rest acc : List Char) :
    splitWsGo (c :: rest) acc =
      if pyIsSpace c then
        if acc = [] then splitWsGo rest [] else acc.reverse :: splitWsGo rest []
      else splitWsGo rest (c :: acc) := rfl

theorem splitWsGo_token_append (tok : List Char)
    (htok : ∀ c ∈ tok, pyIsSpace c = false) :
    ∀ (l acc : List Char),
      splitWsGo (tok ++ l) acc = splitWsGo l (tok.reverse ++ acc) := by
  induction tok with
  | nil => intro l acc; simp
  | cons c tok' ih =>
    intro l acc
    have hc : pyIsSpace c = false := htok c (List.mem_cons_self c tok')
    have htok' : ∀ x ∈ tok', pyIsSpace x = false := fun x hx =>
      htok x (List.mem_cons_of_mem c hx)
    rw [List.cons_append, splitWsGo_cons]
    rw [if_neg (by simp [hc])]
    rw [ih htok' l (c :: acc)]
    simp

theorem splitWsGo_join (ws : List String)
    (hws : ∀ w ∈ ws, w.toList ≠ [] ∧ ∀ c ∈ w.toList, pyIsSpace c = false) :
    splitWsGo (pyJoin " " ws).toList [] = ws.map String.toList := by
  induction ws with
  | nil => rfl
  | cons w ws' ih =>
    cases ws' with
    | nil =>
      show splitWsGo w.toList [] = [w.toList]
      have hw := hws w (List.mem_cons_self w [])
      rw [show w.toList = w.toList ++ ([] : List Char) by simp]
      rw [splitWsGo_token_append w.toList hw.2 [] []]
      unfold splitWsGo
      rw [if_neg (by simpa using hw.1)]
      simp
    | cons w2 ws'' =>
      have hw := hws w (List.mem_cons_self w _)
      have hrest : ∀ x ∈ w2 :: ws'', x.toList ≠ []
          ∧ ∀ c ∈ x.toList, pyIsSpace c = false :=
        fun x hx => hws x (List.mem_cons_of_mem w hx)
      have hjoin : (pyJoin " " (w :: w2 :: ws'')).toList
          = w.toList ++ ' ' :: (pyJoin " " (w2 :: ws'')).toList := by
        show (w ++ " " ++ pyJoin " " (w2 :: ws'')).toList = _
        rw [toList_append, toList_append]
        simp [show (" " : String).toList = [' '] from rfl]
      rw [hjoin, splitWsGo_token_append w.toList hw.2]
      rw [splitWsGo_cons]
      rw [if_pos (by decide), if_neg (by simpa using hw.1)]
      rw [ih hrest]
      simp

theorem pySplitWs_join (ws : List String)
    (hws : ∀ w ∈ ws, w.toList ≠ [] ∧ ∀ c ∈ w.toList, pyIsSpace c = false) :
    pySplitWs (pyJoin " " ws) = ws := by
  unfold pySplitWs
  rw [splitWsGo_join ws hws]
  rw [List.map_map]
  have : (String.mk ∘ String.toList) = id := by
    funext s
    exact mk_toList s
  rw [this, List.map_id]

/-! ### C10 — keyword mismatch on an otherwise well-formed OK line -/

/-- Evaluation of `single_line_command_step` by the shape of the complete
lines of the buffer: with exactly one complete line the discriminator and
keyword steps run on it; otherwise the pipeline waits. -/
theorem slcs_eval (resp command keyword : String) :
    single_line_command_step resp command keyword "\n"
      = (match (pySplit resp "\n").dropLast with
         | [l] => bindX (catch_command_error l command)
             fun response => check_expected_keyword response keyword true
         | _ => .ok .Wait) := by
  unfold single_line_command_step wait_line wait_lines split_complete_lines
  cases h : (pySplit resp "\n").dropLast with
  | nil => simp [h, FlowResult.bind, bindX]
  | cons a as =>
    cases as with
    | nil => simp [h, FlowResult.bind, bindX, List.headI]
    | cons b bs =>
      simp only [h, List.length_cons]
      rw [if_neg (by omega)]
      simp [FlowResult.bind, bindX]

theorem slcs_wait_no_newline (l : List Char) (command keyword : String)
    (h : '\n' ∉ l) :
    single_line_command_step (String.mk l) command keyword "\n"
      = Except.ok FlowResult.Wait := by
  rw [slcs_eval, pySplit_no_newline l h]
  rfl

theorem slcs_wait_keyword_mismatch (line command keyword w : String)
    (rest : List String) (r : List Char)
    (hnl : '\n' ∉ line.toList)
    (hsplit : pySplitWs line = "OK" :: w :: rest)
    (hkw : w ≠ keyword) :
    single_line_command_step (String.mk (line.toList ++ '\n' :: r)) command
      keyword "\n" = Except.ok FlowResult.Wait := by
  rw [slcs_eval, pySplit_newline_concat line.toList r hnl, mk_toList]
  cases hr : pySplit (String.mk r) "\n" with
  | nil => exact absurd hr (pySplit_ne_nil _ _)
  | cons x xs =>
    cases xs with
    | nil =>
      rw [show (line :: [x]).dropLast = [line] from rfl]
      show bindX (catch_command_error line command)
        (fun response => check_expected_keyword response keyword true) = _
      unfold catch_command_error
      rw [hsplit]
      dsimp only
      rw [if_pos (show "OK" = COMMAND_OK_PREFIX from rfl)]
      show check_expected_keyword (pyJoin " " (w :: rest)) keyword true = _
      unfold check_expected_keyword
      have hwf : ∀ x ∈ w :: rest, x.toList ≠ []
          ∧ ∀ c ∈ x.toList, pyIsSpace c = false := by
        intro x hx
        exact pySplitWs_tokens line x (by rw [hsplit]; exact List.mem_cons_of_mem _ hx)
      rw [pySplitWs_join (w :: rest) hwf]
      simp [hkw]
    | cons y ys => rfl

/-- Every prefix of `line ++ "\n" ++ t` makes the keyword-mismatch pipeline
wait. -/
theorem slcs_wait_on_take (line command keyword w : String)
    (rest : List String) (t : List Char)
    (hnl : '\n' ∉ line.toList)
    (hsplit : pySplitWs line = "OK" :: w :: rest)
    (hkw : w ≠ keyword) :
    ∀ k, single_line_command_step
        (String.mk ((line.toList ++ '\n' :: t).take k)) command keyword "\n"
      = Except.ok FlowResult.Wait := by
  intro k
  by_cases hk : k ≤ line.toList.length
  · rw [List.take_append_of_le_length hk]
    exact slcs_wait_no_newline _ _ _
      fun hmem => hnl (List.mem_of_mem_take hmem)
  · have hksplit : k = line.toList.length + (k - line.toList.length) := by omega
    rw [hksplit, List.take_append]
    have hpos : k - line.toList.length = (k - line.toList.length - 1) + 1 := by
      omega
    rw [hpos, List.take_succ_cons]
    exact slcs_wait_keyword_mismatch line command keyword w rest _ hnl hsplit hkw

/-- A future consumer whose processor waits on every buffer extension stays
pending with the fully accumulated buffer. -/
theorem charFeed_all_wait {T : Type} (p : RProcessor T) (l : List Char) :
    ∀ b : List Char,
      (∀ j, p (String.mk (b ++ l.take (j + 1))) = .ok .Wait) →
      l.foldl (process_char p) ⟨String.mk b, .pending⟩
        = ⟨String.mk (b ++ l), .pending⟩ := by
  induction l with
  | nil =>
    intro b _
    simp
  | cons c cs ih =>
    intro b hall
    rw [List.foldl_cons]
    have h0 : p (String.mk (b ++ [c])) = .ok .Wait := by
      have := hall 0
      simpa using this
    have hstep : process_char p ⟨String.mk b, .pending⟩ c
        = ⟨String.mk (b ++ [c]), .pending⟩ := by
      unfold process_char process_and_catch
      dsimp only
      rw [show (String.mk b).push c = String.mk (b ++ [c]) from rfl, h0]
    rw [hstep]
    rw [ih (b ++ [c]) ?_]
    · simp
    · intro j
      have := hall (j + 1)
      simpa [List.take_succ_cons, List.append_assoc] using this

/-- C10 (implicit claim).  For every complete response line of the form
`"OK <word>"` or `"OK <word> <data>"` whose second token differs
case-sensitively from the pipeline's expected keyword,
`single_line_command_step` returns `Wait` — not `Restart` and not `Error` —
so a future-consumer running this pipeline keeps its buffer and never
completes, neither on that line nor after any further appended input; only
an external timeout can terminate the request. -/
theorem keyword_mismatch_waits_forever (line command keyword w : String)
    (rest : List String) (t : String)
    (hnl : '\n' ∉ line.toList)
    (hsplit : pySplitWs line = "OK" :: w :: rest)
    (hkw : w ≠ keyword) :
    single_line_command_step (line ++ "\n") command keyword "\n"
        = Except.ok FlowResult.Wait
    ∧ (future_feed
        (fun resp => single_line_command_step resp command keyword "\n")
        (future_init String) (line ++ "\n" ++ t)).out
      = FutOutcome.pending := by
  constructor
  · have hline : line ++ "\n" = String.mk (line.toList ++ '\n' :: []) := by
      cases line
      rfl
    rw [hline]
    exact slcs_wait_keyword_mismatch line command keyword w rest [] hnl hsplit hkw
  · have hS : (line ++ "\n" ++ t).toList = line.toList ++ '\n' :: t.toList := by
      rw [toList_append, toList_append]
      simp [show ("\n" : String).toList = ['\n'] from rfl]
    show (future_listener _ ⟨"", .pending⟩ (Sum.inl (line ++ "\n" ++ t))).out = _
    rw [future_listener_pending]
    dsimp only
    rw [hS]
    have hfeed := charFeed_all_wait
      (fun resp => single_line_command_step resp command keyword "\n")
      (line.toList ++ '\n' :: t.toList) []
      (by
        intro j
        rw [List.nil_append]
        exact slcs_wait_on_take line command keyword w rest t.toList hnl
          hsplit hkw (j + 1))
    rw [show ("" : String) = String.mk [] from rfl]
    rw [hfeed]

/-- Witness for C10 at the line `"OK FOO 1"` against expected keyword
`"ARMAWAY"`, followed by the later input `"ERR 3\n"`. -/
theorem keyword_mismatch_waits_forever_witness :
    single_line_command_step ("OK FOO 1" ++ "\n") "ARMAWAY 1" "ARMAWAY" "\n"
        = Except.ok FlowResult.Wait
    ∧ (future_feed
        (fun resp => single_line_command_step resp "ARMAWAY 1" "ARMAWAY" "\n")
        (future_init String) ("OK FOO 1" ++ "\n" ++ "ERR 3\n")).out
      = FutOutcome.pending :=
  keyword_mismatch_waits_forever "OK FOO 1" "ARMAWAY 1" "ARMAWAY" "FOO" ["1"]
    "ERR 3\n" (by decide) (by decide) (by decide)

end Alarm
